import Mathlib

/-!
Shallow embedding of the removebg single-page application
(src/src/main.js) and its build-time asset fetcher
(src/scripts/download-models.js).

Conventions of the embedding:
- a browser File object is modelled by its name, declared MIME type and
  byte size (JSFile);
- an object URL created by URL.createObjectURL(blob) is modelled by the
  numeric identity of the blob it references, so following a URL yields
  the blob id;
- DOM visibility toggles (classList add/remove, style.display) become
  Boolean fields of an explicit application state (AppState);
- the single-threaded event loop is modelled by a step relation on
  AppState whose steps are the event handlers of main.js;
- the unawaited call processImage(validFiles[0]) racing with the awaited
  loop of processRemainingFiles is modelled by arbitrary interleavings of
  the two tasks' event sequences (PEvent, Interleave);
- Node fetch / fs effects of download-models.js are modelled by an
  environment (FetchEnv) giving each fetch's outcome and each path's
  prior existence.
-/

/-! ### Files and the validation gate (main.js, handleFiles and the drop listener) -/

/-- A candidate file: name, declared MIME type, size in bytes. -/
structure JSFile where
  name : String
  type : String
  size : Nat
deriving DecidableEq, Repr

/-- main.js line 243: const validTypes = ['image/jpeg', 'image/png', 'image/webp']. -/
def validTypes : List String := ["image/jpeg", "image/png", "image/webp"]

/-- main.js line 244: const maxSize = 10 * 1024 * 1024. -/
def maxSize : Nat := 10 * 1024 * 1024

/-- main.js line 247 error string. -/
def typeErrorMsg : String := "Please upload JPG, PNG, or WebP images only."

/-- main.js line 252 error string. -/
def sizeErrorMsg : String := "Image size must be less than 10MB."

/-- The body of the filter callback in handleFiles (main.js 242-257):
returns the error message shown for a rejected file, none for an accepted
file.  Acceptance is (fileError f).isNone. -/
def fileError (f : JSFile) : Option String :=
  if f.type ∈ validTypes then
    if maxSize < f.size then some sizeErrorMsg else none
  else some typeErrorMsg

/-- validFiles in handleFiles: the accepted sublist, order preserved. -/
def validFilesOf (files : List JSFile) : List JSFile :=
  files.filter fun f => (fileError f).isNone

/-- The showError calls made while filtering, in file order. -/
def errorsEmitted (files : List JSFile) : List String :=
  files.filterMap fileError

/-- Files on which processImage is eventually invoked by handleFiles
(validFiles[0] plus processRemainingFiles over the rest): all accepted
files, in order. -/
def processedOf (files : List JSFile) : List JSFile :=
  validFilesOf files

/-- JS String.prototype.startsWith: the first string begins with the
second. -/
def strStartsWith (s p : String) : Bool :=
  p.data.isPrefixOf s.data

/-- The drop listener (main.js 220-231) pre-filters the dropped files by
file.type.startsWith('image/') before calling handleFiles. -/
def dropFiles (files : List JSFile) : List JSFile :=
  files.filter fun f => strStartsWith f.type "image/"

/-- Errors shown when a list of files arrives by drag-and-drop. -/
def dropErrorsEmitted (files : List JSFile) : List String :=
  errorsEmitted (dropFiles files)

/-- Files processed when a list of files arrives by drag-and-drop. -/
def dropProcessed (files : List JSFile) : List JSFile :=
  processedOf (dropFiles files)

/-! ### Suggested file name (main.js line 90) -/

/-- A character the regex class in the source admits after the dot:
anything but a dot or a slash. -/
def cleanChar (c : Char) : Bool := c != '.' && c != '/'

/-- Leftmost-match semantics of
file.name.replace(re-dot-noslashdot-end, '') (main.js line 90): at the
first position holding a dot whose whole remaining suffix is nonempty and
free of dots and slashes, the match runs to the end of the string and is
replaced by the empty string; if no position matches, the string is
unchanged. -/
def replaceExt : List Char → List Char
  | [] => []
  | c :: rest =>
    if c == '.' && !rest.isEmpty && rest.all cleanChar then []
    else c :: replaceExt rest

/-- Whether a name carries a strippable extension: some dot is followed by
a nonempty run of non-dot non-slash characters reaching the end (such a
dot is necessarily the last dot of the name). -/
def hasCleanExt : List Char → Bool
  | [] => false
  | c :: rest =>
    (c == '.' && !rest.isEmpty && rest.all cleanChar) || hasCleanExt rest

/-- imageData.name in processImage (main.js line 90). -/
def suggestedName (orig : String) : String :=
  String.mk (replaceExt orig.data) ++ "_nobg.png"

/-! ### UI state (main.js globals and DOM toggles) -/

/-- One entry of processedImages (main.js 86-91).  original and result
hold the blob ids their object URLs reference. -/
structure ImageRecord where
  original : Nat
  result : Nat
  resultBlob : Nat
  name : String
deriving DecidableEq, Repr

/-- The mutable page state of main.js: the two globals (processedImages,
currentImageIndex) plus the DOM toggles the handlers flip. -/
structure AppState where
  processedImages : List ImageRecord
  currentImageIndex : Int
  uploadVisible : Bool
  processingActive : Bool
  resultActive : Bool
  errorActive : Bool
  errorText : String
  sliderPos : ℚ
  displayedOriginal : Option Nat
  displayedResult : Option Nat
deriving DecidableEq, Repr

/-- Page load: empty queue, cursor -1, upload zone visible. -/
def initState : AppState :=
  { processedImages := []
    currentImageIndex := -1
    uploadVisible := true
    processingActive := false
    resultActive := false
    errorActive := false
    errorText := ""
    sliderPos := 50
    displayedOriginal := none
    displayedResult := none }

/-- main.js 109-113. -/
def showProcessing (s : AppState) : AppState :=
  { s with uploadVisible := false, processingActive := true, resultActive := false }

/-- main.js 115-117. -/
def hideProcessing (s : AppState) : AppState :=
  { s with processingActive := false }

/-- main.js 119-122. -/
def showUpload (s : AppState) : AppState :=
  { s with uploadVisible := true, resultActive := false }

/-- main.js 153-158: clamp into the 0..100 range, then position the
divider. -/
def setSliderPosition (p : ℚ) (s : AppState) : AppState :=
  { s with sliderPos := max 0 (min 100 p) }

/-- main.js 160-165: percentage from the pointer abscissa relative to the
bounding box of the comparison container. -/
def handleSliderMove (rectLeft rectWidth clientX : ℚ) (s : AppState) : AppState :=
  setSliderPosition ((clientX - rectLeft) / rectWidth * 100) s

/-- main.js 124-135. -/
def showResult (r : ImageRecord) (s : AppState) : AppState :=
  let s1 := hideProcessing s
  let s2 := { s1 with
    uploadVisible := false
    displayedOriginal := some r.original
    displayedResult := some r.result }
  let s3 := setSliderPosition 50 s2
  { s3 with resultActive := true }

/-- main.js 137-140. -/
def showError (msg : String) (s : AppState) : AppState :=
  { s with errorText := msg, errorActive := true }

/-- main.js 142-144 (only the active class is removed; the text stays). -/
def hideError (s : AppState) : AppState :=
  { s with errorActive := false }

/-- main.js 102 fallback shown when error.message is falsy. -/
def fallbackErrorMsg : String := "Failed to process image. Please try again."

/-- The successful path of processImage (main.js 47-99) for one file:
show processing, clear the error, build the record, push it, move the
cursor to the new last index, show the result. origBlob and resBlob are
the blobs behind URL.createObjectURL(file) and
URL.createObjectURL(resultBlob). -/
def processImageSuccess (f : JSFile) (origBlob resBlob : Nat) (s : AppState) : AppState :=
  let s1 := hideError (showProcessing s)
  let r : ImageRecord :=
    { original := origBlob, result := resBlob, resultBlob := resBlob
      name := suggestedName f.name }
  let s2 := { s1 with
    processedImages := s1.processedImages ++ [r]
    currentImageIndex := (s1.processedImages.length : Int) }
  showResult r s2

/-- The catch path of processImage (main.js 100-105): the message (or the
fallback when it is empty, mirroring the JS or-else on a falsy message) is
shown and the view returns to the upload state; the queue and cursor are
not touched. -/
def processImageFailure (msg : String) (s : AppState) : AppState :=
  let s1 := hideError (showProcessing s)
  let s2 := showError (if msg = "" then fallbackErrorMsg else msg) s1
  showUpload (hideProcessing s2)

/-- Click handler of a rendered queue item (main.js 297-301); a handler
exists only for an index the render saw, hence in range of the append-only
queue. -/
def clickQueueItem (i : Nat) (s : AppState) : AppState :=
  match s.processedImages[i]? with
  | some r => showResult r { s with currentImageIndex := (i : Int) }
  | none => s

/-- ArrowLeft branch of the keydown listener (main.js 328-331). -/
def keydownLeft (s : AppState) : AppState :=
  if s.resultActive = true ∧ 0 < s.currentImageIndex then
    let j := s.currentImageIndex - 1
    match s.processedImages[j.toNat]? with
    | some r => showResult r { s with currentImageIndex := j }
    | none => { s with currentImageIndex := j }
  else s

/-- ArrowRight branch of the keydown listener (main.js 332-335). -/
def keydownRight (s : AppState) : AppState :=
  if s.resultActive = true ∧ s.currentImageIndex < (s.processedImages.length : Int) - 1 then
    let j := s.currentImageIndex + 1
    match s.processedImages[j.toNat]? with
    | some r => showResult r { s with currentImageIndex := j }
    | none => { s with currentImageIndex := j }
  else s

/-- newImageBtn click listener (main.js 320-323). -/
def newImageClick (s : AppState) : AppState :=
  hideError (showUpload s)

/-- The n branch of the keydown listener (main.js 338-340). -/
def keydownN (s : AppState) : AppState :=
  if s.resultActive = true then newImageClick s else s

/-- downloadBtn click listener (main.js 307-317): when the cursor denotes
a record, the saved pair is (suggested name, blob referenced by the result
object URL); otherwise nothing happens. -/
def downloadAction (s : AppState) : Option (String × Nat) :=
  if 0 ≤ s.currentImageIndex then
    match s.processedImages[s.currentImageIndex.toNat]? with
    | some r => some (r.name, r.result)
    | none => none
  else none

/-- One observable event-handler invocation of main.js. -/
inductive UIStep : AppState → AppState → Prop where
  | success : ∀ (s : AppState) (f : JSFile) (ob rb : Nat),
      UIStep s (processImageSuccess f ob rb s)
  | failure : ∀ (s : AppState) (msg : String),
      UIStep s (processImageFailure msg s)
  | click : ∀ (s : AppState) (i : Nat), i < s.processedImages.length →
      UIStep s (clickQueueItem i s)
  | navLeft : ∀ (s : AppState), UIStep s (keydownLeft s)
  | navRight : ∀ (s : AppState), UIStep s (keydownRight s)
  | pressN : ∀ (s : AppState), UIStep s (keydownN s)
  | newImage : ∀ (s : AppState), UIStep s (newImageClick s)

/-- States the page can be in after any sequence of handler invocations. -/
inductive UIReachable : AppState → Prop where
  | init : UIReachable initState
  | step : ∀ {s s' : AppState}, UIReachable s → UIStep s s' → UIReachable s'

/-- The cursor invariant of the spec: -1 on the empty queue, otherwise a
valid index. -/
def cursorInv (s : AppState) : Prop :=
  (s.processedImages = [] → s.currentImageIndex = -1) ∧
  (s.processedImages ≠ [] →
    0 ≤ s.currentImageIndex ∧
    s.currentImageIndex < (s.processedImages.length : Int))

/-! ### Interleaving model of the batch pipeline (main.js 259-274)

handleFiles invokes processImage(validFiles[0]) WITHOUT awaiting it and
then starts processRemainingFiles(validFiles.slice(1)), which awaits each
remaining processImage in turn.  So a batch of n accepted files runs as
two logically concurrent tasks on the event loop: the first file alone,
and the remaining files strictly in sequence.  Between await points the
external completions (module import, inference) may resolve in any order,
so the observable event sequence is an interleaving of the two tasks'
own event orders. -/

/-- Observable pipeline events for file number i of a batch. -/
inductive PEvent where
  | inferStart (i : Nat)
  | inferEnd (i : Nat)
  | push (i : Nat)
deriving DecidableEq, Repr

/-- Events of one processImage call in program order: the inference call
is issued, resolves, then the record is pushed. -/
def itemTrace (i : Nat) : List PEvent :=
  [PEvent.inferStart i, PEvent.inferEnd i, PEvent.push i]

/-- Events of a task that awaits the given files one after the other. -/
def seqTrace (is : List Nat) : List PEvent :=
  is.flatMap itemTrace

/-- The unawaited processImage(validFiles[0]) call. -/
def firstTask : List PEvent := itemTrace 0

/-- The processRemainingFiles loop over files 1..n-1. -/
def restTask (n : Nat) : List PEvent := seqTrace (List.range' 1 (n - 1))

/-- t is an interleaving of l1 and l2: both orders preserved. -/
inductive Interleave : List PEvent → List PEvent → List PEvent → Prop where
  | nil : Interleave [] [] []
  | left : ∀ {a : PEvent} {l1 l2 l3 : List PEvent},
      Interleave l1 l2 l3 → Interleave (a :: l1) l2 (a :: l3)
  | right : ∀ {b : PEvent} {l1 l2 l3 : List PEvent},
      Interleave l1 l2 l3 → Interleave l1 (b :: l2) (b :: l3)

/-- Queue and cursor as the push events of a trace update them
(processedImages.push; currentImageIndex = length - 1). -/
structure QState where
  queue : List Nat
  cursor : Int
deriving DecidableEq, Repr

def stepEvent (s : QState) : PEvent → QState
  | PEvent.push i => { queue := s.queue ++ [i], cursor := (s.queue.length : Int) }
  | _ => s

def runFrom (s : QState) (t : List PEvent) : QState :=
  t.foldl stepEvent s

def initQ : QState := { queue := [], cursor := -1 }

/-! ### Asset fetcher (scripts/download-models.js) -/

/-- Outcomes of the external world as download-models.js sees them:
the manifest fetch either yields the parsed resources.json (a list of
resource path / chunk-hash-list pairs) or fails; each chunk fetch either
yields a byte count or fails; existsSync on each chunk path. -/
structure FetchEnv where
  manifest : Except String (List (String × List String))
  chunkResult : String → Except String Nat
  present : String → Bool

/-- allChunks.add semantics: keep first occurrences, in encounter order. -/
def insertUniq (acc : List String) (h : String) : List String :=
  if h ∈ acc then acc else acc ++ [h]

/-- The double loop of download-models.js 73-79 collecting every chunk
hash of every resource into a Set. -/
def allChunksOf (resources : List (String × List String)) : List String :=
  (resources.flatMap fun r => r.2).foldl insertUniq []

/-- Counters of the chunk loop plus the list of hashes actually fetched. -/
structure ChunkStats where
  downloaded : Nat
  skipped : Nat
  failed : Nat
  totalBytes : Nat
  attempts : List String
deriving DecidableEq, Repr

/-- One iteration of the chunk loop (download-models.js 88-108): skip a
chunk already on disk, otherwise fetch it, counting a failure and moving
on. -/
def processChunk (env : FetchEnv) (st : ChunkStats) (hash : String) : ChunkStats :=
  if env.present hash then { st with skipped := st.skipped + 1 }
  else
    match env.chunkResult hash with
    | Except.ok size =>
        { st with
          downloaded := st.downloaded + 1
          totalBytes := st.totalBytes + size
          attempts := st.attempts ++ [hash] }
    | Except.error _ =>
        { st with failed := st.failed + 1, attempts := st.attempts ++ [hash] }

/-- Result of running the script's main (download-models.js 42-118). -/
inductive RunResult where
  | fatal (exitCode : Nat)
  | completed (downloaded skipped failed totalBytes : Nat) (attempts : List String)
deriving DecidableEq, Repr

/-- main: fetch resources.json (exit 1 on failure), then run the chunk
loop over the union of all chunk hashes and report the counters. -/
def runMain (env : FetchEnv) : RunResult :=
  match env.manifest with
  | Except.error _ => RunResult.fatal 1
  | Except.ok resources =>
      let chunks := allChunksOf resources
      let st := chunks.foldl (processChunk env)
        { downloaded := 0, skipped := 0, failed := 0, totalBytes := 0, attempts := [] }
      RunResult.completed st.downloaded st.skipped st.failed st.totalBytes st.attempts

/-- Bool test for a successful fetch outcome. -/
def isOkB (r : Except String Nat) : Bool :=
  match r with
  | Except.ok _ => true
  | Except.error _ => false

/-- Bytes a chunk contributes to totalBytes. -/
def chunkBytes (env : FetchEnv) (hash : String) : Nat :=
  if env.present hash then 0
  else
    match env.chunkResult hash with
    | Except.ok size => size
    | Except.error _ => 0

/-! ### Concrete demonstration data used by witnesses -/

/-- Two images processed in a row on a fresh page. -/
def demoTwo : AppState :=
  processImageSuccess ⟨"b.png", "image/png", 4⟩ 3 4
    (processImageSuccess ⟨"a.png", "image/png", 3⟩ 1 2 initState)

/-- A run whose manifest fetch fails. -/
def envManifestFail : FetchEnv :=
  { manifest := Except.error "network down"
    chunkResult := fun _ => Except.error "unreached"
    present := fun _ => false }

/-- A manifest naming three distinct chunks, one listed twice. -/
def demoResources : List (String × List String) :=
  [("/model", ["h1", "h2", "h3"]), ("/cfg", ["h2"])]

/-- A run where chunk h1 downloads (7 bytes), h2 is already on disk and
h3 fails to fetch. -/
def envDemo : FetchEnv :=
  { manifest := Except.ok demoResources
    chunkResult := fun h => if h = "h1" then Except.ok 7 else Except.error "timeout"
    present := fun h => h == "h2" }

/-! ## Theorems -/

/-! ### C2: type gate (corrected) -/

/-- C2 (counterexample): a file whose declared type is text/plain —
not in the allow-list — arriving by drag-and-drop is silently dropped by
the listener's startsWith('image/') pre-filter: no error message is ever
emitted and nothing is processed, against the claim that a user-visible
error is emitted regardless of the arrival path. -/
theorem drop_nonimage_silent :
    "text/plain" ∉ validTypes ∧
    dropErrorsEmitted [⟨"a.txt", "text/plain", 5⟩] = [] ∧
    dropProcessed [⟨"a.txt", "text/plain", 5⟩] = [] :=
  ⟨by simp [validTypes], rfl, rfl⟩

/-- C2 (amended): a file of disallowed declared type is never accepted
and never processed, whatever its size and arrival path; the type error
message is emitted when it arrives via the file picker, and via
drag-and-drop exactly when its declared type still starts with image/ —
a dropped file of non-image type is ignored without any error. -/
theorem bad_type_always_rejected (f : JSFile) (files : List JSFile)
    (h : f.type ∉ validTypes) :
    fileError f = some typeErrorMsg ∧
    f ∉ processedOf files ∧
    f ∉ dropProcessed files ∧
    (f ∈ files → typeErrorMsg ∈ errorsEmitted files) ∧
    (strStartsWith f.type "image/" = true → f ∈ files →
      typeErrorMsg ∈ dropErrorsEmitted files) := by
  have hfe : fileError f = some typeErrorMsg := by simp [fileError, h]
  refine ⟨hfe, ?_, ?_, ?_, ?_⟩
  · simp [processedOf, validFilesOf, List.mem_filter, hfe]
  · simp [dropProcessed, processedOf, validFilesOf, dropFiles, List.mem_filter, hfe]
  · intro hmem
    exact List.mem_filterMap.mpr ⟨f, hmem, hfe⟩
  · intro hsw hmem
    exact List.mem_filterMap.mpr ⟨f, List.mem_filter.mpr ⟨hmem, hsw⟩, hfe⟩

/-- Instantiation of the amended C2 at a concrete image/gif file. -/
theorem bad_type_always_rejected_witness :
    "image/gif" ∉ validTypes ∧
    (fileError ⟨"a.gif", "image/gif", 5⟩ = some typeErrorMsg ∧
     (⟨"a.gif", "image/gif", 5⟩ : JSFile) ∉ processedOf [⟨"a.gif", "image/gif", 5⟩] ∧
     (⟨"a.gif", "image/gif", 5⟩ : JSFile) ∉ dropProcessed [⟨"a.gif", "image/gif", 5⟩] ∧
     ((⟨"a.gif", "image/gif", 5⟩ : JSFile) ∈ [(⟨"a.gif", "image/gif", 5⟩ : JSFile)] →
       typeErrorMsg ∈ errorsEmitted [⟨"a.gif", "image/gif", 5⟩]) ∧
     (strStartsWith "image/gif" "image/" = true →
       (⟨"a.gif", "image/gif", 5⟩ : JSFile) ∈ [(⟨"a.gif", "image/gif", 5⟩ : JSFile)] →
       typeErrorMsg ∈ dropErrorsEmitted [⟨"a.gif", "image/gif", 5⟩])) :=
  ⟨by simp [validTypes],
   bad_type_always_rejected ⟨"a.gif", "image/gif", 5⟩ [⟨"a.gif", "image/gif", 5⟩]
     (by simp [validTypes])⟩

/-! ### C3: size gate (confirmed) -/

/-- C3: a file of an allowed type passes the gate exactly when its size
is at most 10 MiB; at most 10 MiB it is accepted and processed, above
10 MiB it is rejected and the size error message is emitted. -/
theorem size_gate_on_allowed_types (f : JSFile) (files : List JSFile)
    (ht : f.type ∈ validTypes) :
    (f.size ≤ maxSize →
      fileError f = none ∧ (f ∈ files → f ∈ processedOf files)) ∧
    (maxSize < f.size →
      fileError f = some sizeErrorMsg ∧
      f ∉ processedOf files ∧
      (f ∈ files → sizeErrorMsg ∈ errorsEmitted files)) := by
  constructor
  · intro hs
    have hfe : fileError f = none := by simp [fileError, ht, Nat.not_lt.mpr hs]
    refine ⟨hfe, fun hmem => ?_⟩
    exact List.mem_filter.mpr ⟨hmem, by simp [hfe]⟩
  · intro hs
    have hfe : fileError f = some sizeErrorMsg := by simp [fileError, ht, hs]
    refine ⟨hfe, ?_, fun hmem => ?_⟩
    · simp [processedOf, validFilesOf, List.mem_filter, hfe]
    · exact List.mem_filterMap.mpr ⟨f, hmem, hfe⟩

/-- Instantiation of C3 at a 100-byte JPEG (accepted) and at a PNG one
byte over the ceiling (rejected). -/
theorem size_gate_on_allowed_types_witness :
    ("image/jpeg" ∈ validTypes ∧ (100 ≤ maxSize) ∧
      fileError ⟨"a.jpg", "image/jpeg", 100⟩ = none ∧
      (⟨"a.jpg", "image/jpeg", 100⟩ : JSFile) ∈ processedOf [⟨"a.jpg", "image/jpeg", 100⟩]) ∧
    ("image/png" ∈ validTypes ∧ maxSize < 10485761 ∧
      fileError ⟨"big.png", "image/png", 10485761⟩ = some sizeErrorMsg ∧
      (⟨"big.png", "image/png", 10485761⟩ : JSFile) ∉ processedOf [⟨"big.png", "image/png", 10485761⟩] ∧
      sizeErrorMsg ∈ errorsEmitted [⟨"big.png", "image/png", 10485761⟩]) := by
  have h1 := (size_gate_on_allowed_types ⟨"a.jpg", "image/jpeg", 100⟩
    [⟨"a.jpg", "image/jpeg", 100⟩] (by simp [validTypes])).1 (by decide)
  have h2 := (size_gate_on_allowed_types ⟨"big.png", "image/png", 10485761⟩
    [⟨"big.png", "image/png", 10485761⟩] (by simp [validTypes])).2 (by decide)
  exact ⟨⟨by simp [validTypes], by decide, h1.1, h1.2 (by simp)⟩,
         ⟨by simp [validTypes], by decide, h2.1, h2.2.1, h2.2.2 (by simp)⟩⟩

/-! ### C10: suggested file name and download (confirmed) -/

/-- When the name decomposes as t, a dot, and a nonempty dot-free
slash-free suffix u (such a dot is necessarily the final dot), the
replace call strips exactly the dot and u. -/
theorem replaceExt_strip (t u : List Char) (hu : u ≠ [])
    (hclean : u.all cleanChar = true) :
    replaceExt (t ++ '.' :: u) = t := by
  induction t with
  | nil =>
    simp only [List.nil_append, replaceExt]
    have hne : u.isEmpty = false := by
      cases u with
      | nil => exact absurd rfl hu
      | cons a l => rfl
    simp [hne, hclean]
  | cons c t ih =>
    have hall : (t ++ '.' :: u).all cleanChar = false := by
      simp [List.all_append, cleanChar]
    rw [List.cons_append, replaceExt, hall]
    simp [ih]

/-- A name with no strippable extension is left unchanged. -/
theorem replaceExt_of_no_ext (cs : List Char) (h : hasCleanExt cs = false) :
    replaceExt cs = cs := by
  induction cs with
  | nil => rfl
  | cons c rest ih =>
    rw [hasCleanExt] at h
    have h1 : (c == '.' && !rest.isEmpty && rest.all cleanChar) = false :=
      (Bool.or_eq_false_iff.mp h).1
    have h2 : hasCleanExt rest = false := (Bool.or_eq_false_iff.mp h).2
    rw [replaceExt, h1]
    simp [ih h2]

/-- hasCleanExt holds exactly when the name ends in a dot followed by a
nonempty run of non-dot non-slash characters. -/
theorem hasCleanExt_iff (cs : List Char) :
    hasCleanExt cs = true ↔
      ∃ t u, cs = t ++ '.' :: u ∧ u ≠ [] ∧ u.all cleanChar = true := by
  induction cs with
  | nil =>
    simp only [hasCleanExt]
    constructor
    · intro h; exact absurd h (by simp)
    · rintro ⟨t, u, heq, -, -⟩
      exact absurd heq.symm (List.append_ne_nil_of_right_ne_nil t (by simp))
  | cons c rest ih =>
    rw [hasCleanExt]
    constructor
    · intro h
      rcases Bool.or_eq_true_iff.mp h with hc | hrec
      · refine ⟨[], rest, ?_, ?_, ?_⟩
        · have : c = '.' := by
            have := (Bool.and_eq_true_iff.mp ((Bool.and_eq_true_iff.mp hc).1)).1
            exact eq_of_beq this
          rw [this]; rfl
        · intro hr
          subst hr
          have := (Bool.and_eq_true_iff.mp ((Bool.and_eq_true_iff.mp hc).1)).2
          simp at this
        · exact (Bool.and_eq_true_iff.mp hc).2
      · obtain ⟨t, u, heq, hu, hall⟩ := ih.mp hrec
        exact ⟨c :: t, u, by rw [heq]; rfl, hu, hall⟩
    · rintro ⟨t, u, heq, hu, hall⟩
      cases t with
      | nil =>
        have hc : c = '.' := by
          have := congrArg (fun l => l.head?) heq
          simpa using this
        have hr : rest = u := by
          have := congrArg (fun l => l.tail) heq
          simpa using this
        apply Bool.or_eq_true_iff.mpr
        left
        subst hc
        subst hr
        have hne : rest.isEmpty = false := by
          cases rest with
          | nil => exact absurd rfl hu
          | cons a l => rfl
        simp [hne, hall]
      | cons c' t' =>
        have hcc : c = c' ∧ rest = t' ++ '.' :: u := by
          have h1 := congrArg (fun l => l.head?) heq
          have h2 := congrArg (fun l => l.tail) heq
          constructor
          · simpa using h1
          · simpa using h2
        apply Bool.or_eq_true_iff.mpr
        right
        exact ih.mpr ⟨t', u, hcc.2, hu, hall⟩

/-- C10: the record built for a successfully processed file carries the
name obtained by deleting the final dot-extension — the last dot together
with the nonempty run of non-dot, non-slash characters it introduces at
the end of the name — and appending the string _nobg.png; a name with no
such extension is kept whole; and the Download action on the freshly
appended record saves the result blob under exactly that name. -/
theorem suggested_name_and_download :
    (∀ t u : List Char, u ≠ [] → u.all cleanChar = true →
      replaceExt (t ++ '.' :: u) = t) ∧
    (∀ cs : List Char, hasCleanExt cs = false → replaceExt cs = cs) ∧
    (∀ cs : List Char, hasCleanExt cs = true ↔
      ∃ t u, cs = t ++ '.' :: u ∧ u ≠ [] ∧ u.all cleanChar = true) ∧
    (∀ c : Char, cleanChar c = true ↔ (c ≠ '.' ∧ c ≠ '/')) ∧
    (∀ (f : JSFile) (ob rb : Nat) (s : AppState),
      (processImageSuccess f ob rb s).processedImages =
        s.processedImages ++ [⟨ob, rb, rb, suggestedName f.name⟩] ∧
      downloadAction (processImageSuccess f ob rb s) =
        some (suggestedName f.name, rb)) := by
  refine ⟨replaceExt_strip, replaceExt_of_no_ext, hasCleanExt_iff, ?_, ?_⟩
  · intro c
    simp [cleanChar]
  · intro f ob rb s
    have hq : (processImageSuccess f ob rb s).processedImages =
        s.processedImages ++ [⟨ob, rb, rb, suggestedName f.name⟩] := rfl
    have hc : (processImageSuccess f ob rb s).currentImageIndex =
        (s.processedImages.length : Int) := rfl
    refine ⟨hq, ?_⟩
    rw [downloadAction, hc, hq]
    have hnn : (0 : Int) ≤ (s.processedImages.length : Int) := Int.natCast_nonneg _
    rw [if_pos hnn]
    have htn : ((s.processedImages.length : Int)).toNat = s.processedImages.length :=
      Int.toNat_natCast _
    rw [htn]
    rw [List.getElem?_concat_length]

/-- Instantiation of C10: photo.png is stripped to photo, a name without
an extension is kept whole, and the download after processing photo.png
saves the result blob (id 2) as photo_nobg.png. -/
theorem suggested_name_and_download_witness :
    ("png".data ≠ [] ∧ "png".data.all cleanChar = true) ∧
    replaceExt ("photo".data ++ '.' :: "png".data) = "photo".data ∧
    (hasCleanExt "noext".data = false ∧ replaceExt "noext".data = "noext".data) ∧
    suggestedName "photo.png" = "photo_nobg.png" ∧
    downloadAction (processImageSuccess ⟨"photo.png", "image/png", 3⟩ 1 2 initState) =
      some (suggestedName "photo.png", 2) := by
  refine ⟨⟨by decide, by decide⟩, ?_, ⟨by decide, ?_⟩, by decide, ?_⟩
  · exact suggested_name_and_download.1 "photo".data "png".data (by decide) (by decide)
  · exact suggested_name_and_download.2.1 "noext".data (by decide)
  · exact (suggested_name_and_download.2.2.2.2 ⟨"photo.png", "image/png", 3⟩ 1 2 initState).2

/-! ### C4: cursor invariant (confirmed) -/

theorem showResult_queue_cursor (r : ImageRecord) (s : AppState) :
    (showResult r s).processedImages = s.processedImages ∧
    (showResult r s).currentImageIndex = s.currentImageIndex :=
  ⟨rfl, rfl⟩

theorem processImageFailure_queue_cursor (msg : String) (s : AppState) :
    (processImageFailure msg s).processedImages = s.processedImages ∧
    (processImageFailure msg s).currentImageIndex = s.currentImageIndex :=
  ⟨rfl, rfl⟩

/-- Every event handler of main.js preserves the cursor invariant. -/
theorem cursorInv_step {s s' : AppState} (hinv : cursorInv s) (hs : UIStep s s') :
    cursorInv s' := by
  obtain ⟨hemp, hne⟩ := hinv
  cases hs with
  | success f ob rb =>
    refine ⟨fun h => ?_, fun _ => ?_⟩
    · exact absurd h (by simp [processImageSuccess, showResult, hideError,
        showProcessing, hideProcessing, setSliderPosition])
    · dsimp [processImageSuccess, showResult, hideError, showProcessing,
        hideProcessing, setSliderPosition]
      refine ⟨Int.natCast_nonneg _, ?_⟩
      rw [List.length_append]
      push_cast
      simp
  | failure msg =>
    obtain ⟨hq, hc⟩ := processImageFailure_queue_cursor msg s
    rw [cursorInv, hq, hc]
    exact ⟨hemp, hne⟩
  | click i hi =>
    have hget : s.processedImages[i]? = some s.processedImages[i] :=
      List.getElem?_eq_getElem hi
    simp only [clickQueueItem, hget]
    dsimp [cursorInv, showResult, hideProcessing, setSliderPosition]
    refine ⟨fun h => ?_, fun _ => ⟨Int.natCast_nonneg _, ?_⟩⟩
    · rw [h] at hi
      exact absurd hi (by simp)
    · exact_mod_cast hi
  | navLeft =>
    unfold keydownLeft
    by_cases hcond : s.resultActive = true ∧ 0 < s.currentImageIndex
    · rw [if_pos hcond]
      have hqne : s.processedImages ≠ [] := by
        intro h
        have hc := hemp h
        omega
      obtain ⟨h0, hlen⟩ := hne hqne
      have hj : (s.currentImageIndex - 1).toNat < s.processedImages.length := by
        omega
      have hget : s.processedImages[(s.currentImageIndex - 1).toNat]? =
          some s.processedImages[(s.currentImageIndex - 1).toNat] :=
        List.getElem?_eq_getElem hj
      simp only [hget]
      dsimp [cursorInv, showResult, hideProcessing, setSliderPosition]
      refine ⟨fun h => absurd h hqne, fun _ => ⟨by omega, by omega⟩⟩
    · rw [if_neg hcond]
      exact ⟨hemp, hne⟩
  | navRight =>
    unfold keydownRight
    by_cases hcond : s.resultActive = true ∧
        s.currentImageIndex < (s.processedImages.length : Int) - 1
    · rw [if_pos hcond]
      obtain ⟨-, h2⟩ := hcond
      have hqne : s.processedImages ≠ [] := by
        intro h
        rw [h] at h2
        have hc := hemp h
        simp at h2
        omega
      obtain ⟨h0, hlen⟩ := hne hqne
      have hj : (s.currentImageIndex + 1).toNat < s.processedImages.length := by
        omega
      have hget : s.processedImages[(s.currentImageIndex + 1).toNat]? =
          some s.processedImages[(s.currentImageIndex + 1).toNat] :=
        List.getElem?_eq_getElem hj
      simp only [hget]
      dsimp [cursorInv, showResult, hideProcessing, setSliderPosition]
      refine ⟨fun h => absurd h hqne, fun _ => ⟨by omega, by omega⟩⟩
    · rw [if_neg hcond]
      exact ⟨hemp, hne⟩
  | pressN =>
    unfold keydownN
    by_cases hcond : s.resultActive = true
    · rw [if_pos hcond]
      exact ⟨hemp, hne⟩
    · rw [if_neg hcond]
      exact ⟨hemp, hne⟩
  | newImage =>
    exact ⟨hemp, hne⟩

/-- The cursor invariant holds in every reachable page state. -/
theorem reachable_cursorInv {s : AppState} (h : UIReachable s) : cursorInv s := by
  induction h with
  | init => exact ⟨fun _ => rfl, fun h => absurd rfl h⟩
  | step _ hs ih => exact cursorInv_step ih hs

/-- C4: in every reachable page state the cursor is -1 exactly while the
queue is empty and a valid index into the queue otherwise; every handler
(append on success, queue-item click, arrow navigation, and the handlers
that do not touch the queue) preserves this. -/
theorem cursor_always_valid (s : AppState) (h : UIReachable s) : cursorInv s :=
  reachable_cursorInv h

/-- Instantiation of C4 after one successful processing step from the
initial state. -/
theorem cursor_always_valid_witness :
    cursorInv (processImageSuccess ⟨"a.png", "image/png", 3⟩ 1 2 initState) :=
  cursor_always_valid _
    (UIReachable.step UIReachable.init
      (UIStep.success initState ⟨"a.png", "image/png", 3⟩ 1 2))

/-! ### C7: failure handling (corrected) -/

/-- C7 (counterexample): when the thrown error carries an empty (falsy)
message, the or-else in the catch block shows the generic fallback text
instead of the underlying message, so the text shown is not the
underlying failure message. -/
theorem empty_message_shows_fallback :
    (processImageFailure "" initState).errorText ≠ "" ∧
    (processImageFailure "" initState).errorText = fallbackErrorMsg :=
  ⟨by decide, rfl⟩

/-- C7 (amended): on any failure during model loading or inference whose
message is non-empty, the pipeline shows exactly that message, hides the
processing view, returns to the upload view, and leaves the queue and
cursor untouched (no record is appended); an empty message is replaced by
a generic fallback. -/
theorem failure_shows_message_and_resets (s : AppState) (msg : String)
    (h : msg ≠ "") :
    (processImageFailure msg s).errorActive = true ∧
    (processImageFailure msg s).errorText = msg ∧
    (processImageFailure msg s).uploadVisible = true ∧
    (processImageFailure msg s).processingActive = false ∧
    (processImageFailure msg s).resultActive = false ∧
    (processImageFailure msg s).processedImages = s.processedImages ∧
    (processImageFailure msg s).currentImageIndex = s.currentImageIndex := by
  refine ⟨rfl, ?_, rfl, rfl, rfl, rfl, rfl⟩
  dsimp [processImageFailure, showError, showUpload, hideProcessing, hideError,
    showProcessing]
  rw [if_neg h]

/-- Instantiation of the amended C7 on a model-load failure message. -/
theorem failure_shows_message_and_resets_witness :
    ("Failed to load background removal model: x" ≠ "") ∧
    ((processImageFailure "Failed to load background removal model: x" initState).errorActive = true ∧
     (processImageFailure "Failed to load background removal model: x" initState).errorText =
       "Failed to load background removal model: x" ∧
     (processImageFailure "Failed to load background removal model: x" initState).uploadVisible = true ∧
     (processImageFailure "Failed to load background removal model: x" initState).processingActive = false ∧
     (processImageFailure "Failed to load background removal model: x" initState).resultActive = false ∧
     (processImageFailure "Failed to load background removal model: x" initState).processedImages =
       initState.processedImages ∧
     (processImageFailure "Failed to load background removal model: x" initState).currentImageIndex =
       initState.currentImageIndex) :=
  ⟨by decide,
   failure_shows_message_and_resets initState
     "Failed to load background removal model: x" (by decide)⟩

/-! ### C8: arrow-key navigation (confirmed) -/

/-- C8: while a result is displayed, ArrowLeft at cursor 0 is a complete
no-op and ArrowRight at the last index is a complete no-op; at any other
cursor position ArrowLeft and ArrowRight move the cursor by exactly one
and display the record now under the cursor. -/
theorem nav_clamps_at_boundaries (s : AppState) (hr : UIReachable s)
    (hres : s.resultActive = true) :
    (s.currentImageIndex = 0 → keydownLeft s = s) ∧
    (s.currentImageIndex = (s.processedImages.length : Int) - 1 →
      keydownRight s = s) ∧
    (0 < s.currentImageIndex →
      ∃ r : ImageRecord,
        s.processedImages[(s.currentImageIndex - 1).toNat]? = some r ∧
        (keydownLeft s).currentImageIndex = s.currentImageIndex - 1 ∧
        (keydownLeft s).displayedOriginal = some r.original ∧
        (keydownLeft s).displayedResult = some r.result ∧
        (keydownLeft s).resultActive = true) ∧
    (s.currentImageIndex < (s.processedImages.length : Int) - 1 →
      ∃ r : ImageRecord,
        s.processedImages[(s.currentImageIndex + 1).toNat]? = some r ∧
        (keydownRight s).currentImageIndex = s.currentImageIndex + 1 ∧
        (keydownRight s).displayedOriginal = some r.original ∧
        (keydownRight s).displayedResult = some r.result ∧
        (keydownRight s).resultActive = true) := by
  obtain ⟨hemp, hne⟩ := reachable_cursorInv hr
  refine ⟨fun h0 => ?_, fun hlast => ?_, fun hpos => ?_, fun hlt => ?_⟩
  · unfold keydownLeft
    rw [if_neg]
    intro hcond
    omega
  · unfold keydownRight
    rw [if_neg]
    intro hcond
    omega
  · have hqne : s.processedImages ≠ [] := by
      intro h
      have := hemp h
      omega
    obtain ⟨h0, hlen⟩ := hne hqne
    have hj : (s.currentImageIndex - 1).toNat < s.processedImages.length := by
      omega
    have hget : s.processedImages[(s.currentImageIndex - 1).toNat]? =
        some s.processedImages[(s.currentImageIndex - 1).toNat] :=
      List.getElem?_eq_getElem hj
    refine ⟨s.processedImages[(s.currentImageIndex - 1).toNat], hget, ?_⟩
    unfold keydownLeft
    rw [if_pos ⟨hres, hpos⟩]
    simp only [hget]
    dsimp [showResult, hideProcessing, setSliderPosition]
    exact ⟨rfl, rfl, rfl, rfl⟩
  · have hqne : s.processedImages ≠ [] := by
      intro h
      have := hemp h
      rw [h] at hlt
      simp at hlt
      omega
    obtain ⟨h0, hlen⟩ := hne hqne
    have hj : (s.currentImageIndex + 1).toNat < s.processedImages.length := by
      omega
    have hget : s.processedImages[(s.currentImageIndex + 1).toNat]? =
        some s.processedImages[(s.currentImageIndex + 1).toNat] :=
      List.getElem?_eq_getElem hj
    refine ⟨s.processedImages[(s.currentImageIndex + 1).toNat], hget, ?_⟩
    unfold keydownRight
    rw [if_pos ⟨hres, hlt⟩]
    simp only [hget]
    dsimp [showResult, hideProcessing, setSliderPosition]
    exact ⟨rfl, rfl, rfl, rfl⟩

/-- Instantiation of C8 on a page with two processed images and the
cursor on the last: ArrowRight is a no-op and ArrowLeft moves to 0. -/
theorem nav_clamps_at_boundaries_witness :
    demoTwo.resultActive = true ∧
    keydownRight demoTwo = demoTwo ∧
    (keydownLeft demoTwo).currentImageIndex = 0 := by
  have hreach : UIReachable demoTwo := by
    unfold demoTwo
    exact UIReachable.step
      (UIReachable.step UIReachable.init
        (UIStep.success initState ⟨"a.png", "image/png", 3⟩ 1 2))
      (UIStep.success _ ⟨"b.png", "image/png", 4⟩ 3 4)
  have h := nav_clamps_at_boundaries demoTwo hreach rfl
  refine ⟨rfl, h.2.1 (by decide), ?_⟩
  obtain ⟨r, -, hc, -⟩ := h.2.2.1 (by decide)
  rw [hc]
  decide

/-! ### C6: comparison slider clamping (confirmed) -/

/-- C6: for any pointer abscissa the applied slider position is clamped
into the 0..100 range: at or left of the left edge of the comparison box
the position is 0, at or right of the right edge it is 100, and inside
the box it is the proportional percentage of the box width.  Coordinates
are modelled as rationals; the box width is positive. -/
theorem slider_position_clamped (s : AppState) (L W X : ℚ) (hW : 0 < W) :
    (X ≤ L → (handleSliderMove L W X s).sliderPos = 0) ∧
    (L + W ≤ X → (handleSliderMove L W X s).sliderPos = 100) ∧
    (L ≤ X → X ≤ L + W →
      (handleSliderMove L W X s).sliderPos = (X - L) / W * 100) := by
  have hsl : (handleSliderMove L W X s).sliderPos =
      max 0 (min 100 ((X - L) / W * 100)) := rfl
  refine ⟨fun h => ?_, fun h => ?_, fun h1 h2 => ?_⟩
  · have hq : (X - L) / W ≤ 0 :=
      div_nonpos_iff.mpr (Or.inr ⟨sub_nonpos.mpr h, hW.le⟩)
    have hp : (X - L) / W * 100 ≤ 0 := by nlinarith
    rw [hsl, min_eq_right (hp.trans (by norm_num)), max_eq_left hp]
  · have hq : 1 ≤ (X - L) / W := (one_le_div hW).mpr (by linarith)
    have hp : (100 : ℚ) ≤ (X - L) / W * 100 := by nlinarith
    rw [hsl, min_eq_left hp]
    norm_num
  · have hq0 : 0 ≤ (X - L) / W := div_nonneg (by linarith) hW.le
    have hq1 : (X - L) / W ≤ 1 := (div_le_one hW).mpr (by linarith)
    have hp0 : 0 ≤ (X - L) / W * 100 := by nlinarith
    have hp1 : (X - L) / W * 100 ≤ 100 := by nlinarith
    rw [hsl, min_eq_right hp1, max_eq_right hp0]

/-- Instantiation of C6 on a box of width 2 at origin: a pointer far
left gives 0, far right gives 100, and the midpoint gives 50. -/
theorem slider_position_clamped_witness :
    (0 : ℚ) < 2 ∧
    (handleSliderMove 0 2 (-1) initState).sliderPos = 0 ∧
    (handleSliderMove 0 2 5 initState).sliderPos = 100 ∧
    (handleSliderMove 0 2 1 initState).sliderPos = 50 := by
  refine ⟨by norm_num,
    (slider_position_clamped initState 0 2 (-1) (by norm_num)).1 (by norm_num),
    (slider_position_clamped initState 0 2 5 (by norm_num)).2.1 (by norm_num), ?_⟩
  have h := (slider_position_clamped initState 0 2 1 (by norm_num)).2.2
    (by norm_num) (by norm_num)
  rw [h]
  norm_num

/-! ### C1: sequential processing (code_bug) -/

/-- C1 (violation witness): handleFiles calls processImage(validFiles[0])
without awaiting it and immediately launches processRemainingFiles, so a
batch of two accepted files runs as two concurrent tasks.  The
interleaving below — both calls suspend on the awaited model import, then
both inferences run — is reachable on the event loop, and in it both
inference calls are in flight at once: after the prefix, inference has
started for file 0 and for file 1 and neither has ended, against the
claim (and the comment in the source) that processing is strictly
one-at-a-time. -/
theorem overlapping_inference_reachable :
    ∃ t pre suf : List PEvent,
      Interleave firstTask (restTask 2) t ∧
      t = pre ++ suf ∧
      PEvent.inferStart 0 ∈ pre ∧
      PEvent.inferStart 1 ∈ pre ∧
      PEvent.inferEnd 0 ∉ pre ∧
      PEvent.inferEnd 1 ∉ pre := by
  refine ⟨[PEvent.inferStart 0, PEvent.inferStart 1, PEvent.inferEnd 0,
           PEvent.push 0, PEvent.inferEnd 1, PEvent.push 1],
          [PEvent.inferStart 0, PEvent.inferStart 1],
          [PEvent.inferEnd 0, PEvent.push 0, PEvent.inferEnd 1, PEvent.push 1],
          ?_, rfl, by decide, by decide, by decide, by decide⟩
  exact Interleave.left (Interleave.right (Interleave.left (Interleave.left
    (Interleave.right (Interleave.right Interleave.nil)))))

/-! ### C5: append order (code_bug) -/

/-- C5 (violation witness): in the same race, when the second file's
inference finishes before the first file's, the records are pushed in
completion order, so the queue ends as the reversal of submission order;
the cursor does still equal the last index after the final append. -/
theorem append_out_of_submission_order :
    ∃ t : List PEvent,
      Interleave firstTask (restTask 2) t ∧
      (runFrom initQ t).queue = [1, 0] ∧
      (runFrom initQ t).queue ≠ [0, 1] ∧
      (runFrom initQ t).cursor = 1 := by
  refine ⟨[PEvent.inferStart 0, PEvent.inferStart 1, PEvent.inferEnd 1,
           PEvent.push 1, PEvent.inferEnd 0, PEvent.push 0],
          ?_, by decide, by decide, by decide⟩
  exact Interleave.left (Interleave.right (Interleave.right (Interleave.right
    (Interleave.left (Interleave.left Interleave.nil)))))

/-! ### C9: asset fetcher error policy (confirmed) -/

/-- Functional characterization of the chunk loop: every chunk is
visited; present chunks are skipped, absent ones are fetched exactly
once, a fetch failure only bumps the failure counter. -/
theorem foldl_processChunk (env : FetchEnv) (l : List String) (st : ChunkStats) :
    l.foldl (processChunk env) st =
      { downloaded := st.downloaded +
          (l.filter fun h => !env.present h && isOkB (env.chunkResult h)).length
        skipped := st.skipped + (l.filter fun h => env.present h).length
        failed := st.failed +
          (l.filter fun h => !env.present h && !isOkB (env.chunkResult h)).length
        totalBytes := st.totalBytes + (l.map (chunkBytes env)).sum
        attempts := st.attempts ++ l.filter fun h => !env.present h } := by
  induction l generalizing st with
  | nil => simp
  | cons h l ih =>
    by_cases hp : env.present h = true
    · have hstep : processChunk env st h = { st with skipped := st.skipped + 1 } := by
        simp [processChunk, hp]
      rw [List.foldl_cons, hstep, ih]
      simp [List.filter_cons, hp, chunkBytes]
      all_goals omega
    · have hp' : env.present h = false := by simpa using hp
      cases hres : env.chunkResult h with
      | ok size =>
        have hstep : processChunk env st h =
            { st with
              downloaded := st.downloaded + 1
              totalBytes := st.totalBytes + size
              attempts := st.attempts ++ [h] } := by
          simp [processChunk, hp', hres]
        rw [List.foldl_cons, hstep, ih]
        simp [List.filter_cons, hp', hres, chunkBytes, isOkB]
        all_goals omega
      | error e =>
        have hstep : processChunk env st h =
            { st with
              failed := st.failed + 1
              attempts := st.attempts ++ [h] } := by
          simp [processChunk, hp', hres]
        rw [List.foldl_cons, hstep, ih]
        simp [List.filter_cons, hp', hres, chunkBytes, isOkB]
        all_goals omega

/-- The Set of chunk hashes collects without duplicates. -/
theorem nodup_foldl_insertUniq (l acc : List String) (hacc : acc.Nodup) :
    (l.foldl insertUniq acc).Nodup := by
  induction l generalizing acc with
  | nil => exact hacc
  | cons h l ih =>
    rw [List.foldl_cons]
    apply ih
    unfold insertUniq
    by_cases hm : h ∈ acc
    · rw [if_pos hm]
      exact hacc
    · rw [if_neg hm]
      refine hacc.append (List.nodup_singleton h) ?_
      intro a ha hb
      have : a = h := by simpa using hb
      rw [this] at ha
      exact hm ha

theorem allChunksOf_nodup (rs : List (String × List String)) :
    (allChunksOf rs).Nodup :=
  nodup_foldl_insertUniq _ _ List.nodup_nil

/-- Each chunk is counted exactly once among downloaded, skipped,
failed. -/
theorem chunk_partition (env : FetchEnv) (l : List String) :
    (l.filter fun h => !env.present h && isOkB (env.chunkResult h)).length +
    (l.filter fun h => env.present h).length +
    (l.filter fun h => !env.present h && !isOkB (env.chunkResult h)).length
      = l.length := by
  induction l with
  | nil => rfl
  | cons h l ih =>
    by_cases hp : env.present h = true
    · simp [List.filter_cons, hp]
      omega
    · have hp' : env.present h = false := by simpa using hp
      by_cases hok : isOkB (env.chunkResult h) = true
      · simp [List.filter_cons, hp', hok]
        omega
      · have hok' : isOkB (env.chunkResult h) = false := by simpa using hok
        simp [List.filter_cons, hp', hok']
        omega

/-- C9: a manifest fetch failure is fatal with exit code 1; when the
manifest succeeds the run always completes, visiting every chunk exactly
once — each chunk is skipped when present, otherwise fetched exactly once
(the attempted hashes are exactly the absent ones, without duplicates, so
nothing is retried), and a failed chunk only increments the failed
counter while the rest are still attempted. -/
theorem fetcher_failure_policy (env : FetchEnv) :
    (∀ e, env.manifest = Except.error e → runMain env = RunResult.fatal 1) ∧
    (∀ rs, env.manifest = Except.ok rs →
      runMain env = RunResult.completed
          ((allChunksOf rs).filter fun h => !env.present h && isOkB (env.chunkResult h)).length
          ((allChunksOf rs).filter fun h => env.present h).length
          ((allChunksOf rs).filter fun h => !env.present h && !isOkB (env.chunkResult h)).length
          (((allChunksOf rs).map (chunkBytes env)).sum)
          ((allChunksOf rs).filter fun h => !env.present h) ∧
      ((allChunksOf rs).filter fun h => !env.present h).Nodup ∧
      ((allChunksOf rs).filter fun h => !env.present h && isOkB (env.chunkResult h)).length +
        ((allChunksOf rs).filter fun h => env.present h).length +
        ((allChunksOf rs).filter fun h => !env.present h && !isOkB (env.chunkResult h)).length
        = (allChunksOf rs).length) := by
  constructor
  · intro e he
    unfold runMain
    rw [he]
  · intro rs hrs
    refine ⟨?_, (allChunksOf_nodup rs).filter _, chunk_partition env (allChunksOf rs)⟩
    unfold runMain
    rw [hrs]
    dsimp only
    rw [foldl_processChunk]
    simp

/-- Instantiation of C9: a failing manifest exits 1; on the demo
environment the run completes with one chunk downloaded (7 bytes), one
skipped, one failed, and only the two absent chunks ever fetched. -/
theorem fetcher_failure_policy_witness :
    runMain envManifestFail = RunResult.fatal 1 ∧
    runMain envDemo = RunResult.completed 1 1 1 7 ["h1", "h3"] := by
  constructor
  · exact (fetcher_failure_policy envManifestFail).1 "network down" rfl
  · have h := ((fetcher_failure_policy envDemo).2 demoResources rfl).1
    rw [h]
    decide
